import Mathlib

/-!
The command-line front end of common-string (`main.cpp`).

A shallow embedding of `main.cpp`: the three modes `t1Mode`, `t2Mode`, `t3Mode`,
`solveOnce` and the interactive observer `peekFunction`.

* `std::string` and `char*` rows are lists of characters, `std::cin` is the list of characters
  still to be read, `ulong` values are natural numbers (reduced modulo `2^64` or bounded by
  `ULONG_MAX` where the source can overflow: `stoul`, `currentStrIndex + 1`), and the `int`
  loop counters of `peekFunction` stop at `INT_MAX`.
* Functions with effects return the trace of the effects they perform (`Event`), in program
  order, together with the value of their `return` statement, if one is executed. Where the
  source runs into undefined behaviour (a closing brace of an `int` function reached without
  a `return`, a signed overflow), the trace ends there and the run is marked.
* `data/RandomStringGenerator.h` and `algorithm/CommonStringFinder.h` are not among the
  sources: the generator is a parameter of `t2Mode`, calls of the solvers are events, and the
  solvers themselves are modelled from the specification where a claim is about their results.
-/

set_option autoImplicit false

namespace CommonString

/-! ## Data model -/

/-- The `StringSet` container: `numStrings` rows of `stringLength` characters each. -/
structure StringSet where
  stringLength : Nat
  numStrings : Nat
  data : List (List Char)
  deriving DecidableEq, Repr

/-- A character of the three-symbol alphabet, the class `[10*]` of the two regular
expressions of `t1Mode`. -/
def isAlphabetChar (c : Char) : Bool :=
  c == '1' || c == '0' || c == '*'

/-- The storage of the set has the shape its metadata announces. -/
def StringSet.Allocated (set : StringSet) : Prop :=
  set.data.length = set.numStrings ∧ ∀ s ∈ set.data, s.length = set.stringLength

/-- The `StringSet` invariant: positive length, `numStrings` rows, every row has exactly
`stringLength` characters, all of them from `0`, `1`, `*`. -/
def StringSet.Valid (set : StringSet) : Prop :=
  1 ≤ set.stringLength ∧ set.data.length = set.numStrings ∧
    ∀ s ∈ set.data, s.length = set.stringLength ∧ ∀ c ∈ s, c = '0' ∨ c = '1' ∨ c = '*'

/-- The callbacks that `main.cpp` hands to `heuristicInteractive`. -/
inductive Observer where
  | peekFunction
  deriving DecidableEq, Repr

/-- The observable effects of the functions of `main.cpp`, in program order. -/
inductive Event where
  /-- Text written to `std::cout` (an `endl` is the newline character). -/
  | cout (text : String)
  /-- The statement part `cout << set`. -/
  | coutSet (set : StringSet)
  /-- The statement part `cout << r` for the `Result` of the latest solver call. -/
  | coutResult
  /-- The call `rsg.generateStringSet(stringLength, numStrings)`. -/
  | generateStringSet (stringLength numStrings : Nat)
  /-- The call `solveOnce(set, withInteractiveMode)`. -/
  | solveOnce (set : StringSet) (withInteractiveMode : Bool)
  /-- The call `csf.heuristic(set)`. -/
  | heuristic (set : StringSet)
  /-- The call `csf.heuristicInteractive(set, observer)`. -/
  | heuristicInteractive (set : StringSet) (observer : Observer)
  /-- The call `csf.bruteForce(set)`. -/
  | bruteForce (set : StringSet)
  deriving DecidableEq, Repr

/-- What one call of a mode function does: its effects, and the value it returns. `ret` is
`none` when control reaches the closing brace of the function without a `return`
statement. The mode functions return `int`, so the behaviour is undefined from that point:
`events` are then the effects up to the closing brace, and the source determines nothing of
what the program does after them. -/
structure Run where
  events : List Event
  ret : Option Int
  deriving DecidableEq, Repr

def kFileError : String := "File error"

def kError : Int := 1

/-! ## `solveOnce` -/

/-- `solveOnce(set, withInteractiveMode)`: print the set, run the heuristic (interactive or
plain), print its result, run the brute force and print its result. -/
def solveOnce (set : StringSet) (withInteractiveMode : Bool) : List Event :=
  [.cout "Input:\n", .coutSet set, .cout "\n\n"] ++
  (if withInteractiveMode then
    [.cout "HEURISTIC:\n", .heuristicInteractive set .peekFunction]
  else
    [.heuristic set]) ++
  [.cout "Heuristic solution:   ", .coutResult, .cout "\n",
   .cout "Brute-force solution: ", .bruteForce set, .coutResult, .cout "\n"]

/-! ## `t1Mode` -/

/-- `std::getline(cin, line)`: the characters up to the next newline or the end of input are
extracted, the newline is extracted and dropped. The stream is good afterwards unless nothing
at all could be extracted. Returns (stream is good, `line`, rest of the input). -/
def getline (cin : List Char) : Bool × List Char × List Char :=
  (!cin.isEmpty, cin.takeWhile (· != '\n'), (cin.dropWhile (· != '\n')).drop 1)

/-- `regex_match(s, regex("^[10*]+$"))`. A regular expression is modelled by the language it
denotes: the limits of the regex library (a `regex_error` thrown when the expression is built,
the depth of the matcher on a long line) are not part of the model. -/
def matchFirstLine (s : List Char) : Bool :=
  !s.isEmpty && s.all isAlphabetChar

/-- `regex_match(s, format)` for `format = regex("^[10*]{n}$")`, modelled by the language of
the expression like `matchFirstLine`; `t1Mode` has no handler for a `regex_error` that the
construction of `format` throws for a large `n`. -/
def matchFormat (n : Nat) (s : List Char) : Bool :=
  s.length == n && s.all isAlphabetChar

/-- The loop `for (string line; getline(cin, line);)` of `t1Mode`: `none` on a line that does
not match `format`, otherwise `readData` with the lines read pushed at its back. Every
iteration extracts at least one character; the first argument bounds the number of
iterations, and a bound of at least the length of `cin` is never what ends the loop
(`readLoop_eq`). -/
def readLoop (stringLength : Nat) : Nat → List Char → List (List Char) → Option (List (List Char))
  | 0, _, readData => some readData
  | fuel + 1, cin, readData =>
    match getline cin with
    | (false, _, _) => some readData
    | (true, line, rest) =>
      if !matchFormat stringLength line then none
      else readLoop stringLength fuel rest (readData ++ [line])

/-- `StringSet set(stringLength, numStrings)` followed by the loop that copies
`stringLength` characters of each `readData[str]` into `data[str]`. -/
def buildSet (stringLength : Nat) (readData : List (List Char)) : StringSet :=
  { stringLength := stringLength
    numStrings := readData.length
    data := readData.map (·.take stringLength) }

/-- The argument check that opens `t1Mode`: `some withInteractiveMode`, or `none` where the
function returns `kError`. -/
def t1Args (args : List String) : Option Bool :=
  if args.length = 2 then
    if args[1]? = some "-i" then some true else none
  else if args.length > 2 then none
  else some false

/-- `t1Mode(args)` run on the standard input `cin`. -/
def t1Mode (args : List String) (cin : List Char) : Run :=
  match t1Args args with
  | none => ⟨[], some kError⟩
  | some withInteractiveMode =>
    match getline cin with
    | (_, firstLine, rest) =>
      if !matchFirstLine firstLine then
        ⟨[.cout (kFileError ++ "\n")], some kError⟩
      else
        let stringLength := firstLine.length
        match readLoop stringLength rest.length rest [] with
        | none => ⟨[.cout (kFileError ++ "\n")], some kError⟩
        | some readData =>
          let set := buildSet stringLength readData
          ⟨.solveOnce set withInteractiveMode :: solveOnce set withInteractiveMode, none⟩

/-! ## `t2Mode` and `t3Mode` -/

def ULONG_MAX : Nat := 2 ^ 64 - 1

/-- The two exceptions `std::stoul` throws, both derived from `std::logic_error`. -/
inductive LogicError where
  | invalid_argument
  | out_of_range
  deriving DecidableEq, Repr

/-- The characters `isspace` accepts in the C locale. -/
def isSpace (c : Char) : Bool :=
  c == ' ' || c == '\t' || c == '\n' || c == Char.ofNat 11 || c == Char.ofNat 12 || c == '\r'

/-- `std::stoul(str)` (base 10), which is `strtoul`: leading white space is skipped, one sign
is accepted, the longest run of decimal digits is converted and what follows is ignored. No
digit at all throws `invalid_argument`, a magnitude above `ULONG_MAX` throws `out_of_range`,
and a minus sign negates the value in `unsigned long` arithmetic. -/
def stoul (str : String) : Except LogicError Nat :=
  let s := str.toList.dropWhile isSpace
  let signed : Bool × List Char :=
    match s with
    | '-' :: r => (true, r)
    | '+' :: r => (false, r)
    | _ => (false, s)
  let digits := signed.2.takeWhile Char.isDigit
  if digits.isEmpty then .error .invalid_argument
  else
    let v := digits.foldl (fun acc c => 10 * acc + (c.toNat - '0'.toNat)) 0
    if v > ULONG_MAX then .error .out_of_range
    else .ok (if signed.1 then (2 ^ 64 - v) % 2 ^ 64 else v)

/-- The `switch (args.size())` that opens `t2Mode`: `some withInteractiveMode`, or `none`
where the function returns `kError`. -/
def t2Args (args : List String) : Option Bool :=
  if args.length = 5 then some false
  else if args.length = 6 then
    if args[1]? = some "-i" then some true else none
  else none

/-- The local variables `nSet`, `mSet`, `stringLength`, `numStrings` of `t2Mode`. -/
structure GenOptions where
  nSet : Bool
  mSet : Bool
  stringLength : Nat
  numStrings : Nat
  deriving DecidableEq, Repr

/-- The body of the loop of `t2Mode` at index `i`; `none` where the function returns `kError`,
by the `return` of the last branch or by the `catch` of what `stoul` throws. For the
argument counts 5 and 6 the indices `i` and `i + 1` are inside `args`. -/
def t2Step (args : List String) (i : Nat) (o : GenOptions) : Option GenOptions :=
  if args[i]? = some "-n" && !o.nSet then
    match stoul (args.getD (i + 1) "") with
    | .ok v => some { o with stringLength := v, nSet := true }
    | .error _ => none
  else if args[i]? = some "-m" && !o.mSet then
    match stoul (args.getD (i + 1) "") with
    | .ok v => some { o with numStrings := v, mSet := true }
    | .error _ => none
  else none

/-- `t2Mode(args)`. The random generator is not part of `main.cpp`; `gen stringLength
numStrings` is the set that `rsg.generateStringSet(stringLength, numStrings)` returns in this
run. The loop `for (int i = goi; i < goi+3; i += 2)` runs for `i = goi` and `i = goi + 2`. -/
def t2Mode (gen : Nat → Nat → StringSet) (args : List String) : Run :=
  match t2Args args with
  | none => ⟨[], some kError⟩
  | some withInteractiveMode =>
    let goi := if withInteractiveMode then 2 else 1
    match (t2Step args goi ⟨false, false, 0, 0⟩).bind (t2Step args (goi + 2)) with
    | none => ⟨[], some kError⟩
    | some o =>
      let set := gen o.stringLength o.numStrings
      ⟨.generateStringSet o.stringLength o.numStrings ::
        .solveOnce set withInteractiveMode :: solveOnce set withInteractiveMode, none⟩

/-- `t3Mode(args)`: the body of the function is empty. -/
def t3Mode (_args : List String) : Run :=
  ⟨[], none⟩

/-! ## `peekFunction` -/

/-- An element that `peekFunction` reads from one of the arrays it is given. -/
inductive Read where
  /-- The character `key[i]`. -/
  | key (i : Nat)
  /-- The character `data[str][i]` of the set. -/
  | data (str i : Nat)
  /-- The counter `matchingLetters[i]`. -/
  | matchingLetters (i : Nat)
  /-- The list `matchingStrings[i]`. -/
  | matchingStrings (i : Nat)
  deriving DecidableEq, Repr

/-- The effects of `peekFunction`, in program order. -/
inductive PeekEvent where
  | read (r : Read)
  | cout (text : String)
  /-- The call `cin.get()`. -/
  | cinGet
  deriving DecidableEq, Repr

/-- `string(p, n)`: the `n` characters `p[0] .. p[n-1]` are read, here from the row that
`read` names, and make up the string. -/
def readString (read : Nat → Read) (p : List Char) (n : Nat) : List PeekEvent × String :=
  ((List.range n).map (fun i => .read (read i)),
    String.mk ((List.range n).map (fun i => p.getD i ' ')))

/-- The inner loop of `peekFunction` over `matchingStrings[i]`: the elements, separated by
", ". -/
def showList : List Nat → String
  | [] => ""
  | [x] => toString x
  | x :: y :: rest => toString x ++ ", " ++ showList (y :: rest)

/-- `setw(3) << left << n`. -/
def setw3Left (n : Nat) : String :=
  let s := toString n
  s ++ String.mk (List.replicate (3 - s.length) ' ')

def INT_MAX : Nat := 2 ^ 31 - 1

/-- What one call of `peekFunction` does. `defined` is false when a loop counter is
incremented at `INT_MAX`: that is a signed overflow, the behaviour is undefined from there, and
`events` are the effects up to that point. -/
structure PeekRun where
  events : List PeekEvent
  defined : Bool
  deriving DecidableEq, Repr

/-- The loop `for (auto i = 0; i < bound; ++i) body` of `peekFunction`, from the counter value
`i` on. The counter is an `int` (the type of `0`), converted to `unsigned long` for the
comparison with `bound`. Returns the effects of the iterations that run, and whether the loop
ends by its condition; it does not when `++i` is reached with `i = INT_MAX`. The first number
bounds the iterations; from `i = 0` the bound `bound` is never what ends the loop
(`intLoop_spec`). -/
def intLoop (bound : Nat) (body : Nat → List PeekEvent) : Nat → Nat → List PeekEvent × Bool
  | 0, _ => ([], true)
  | fuel + 1, i =>
    if i < bound then
      if i = INT_MAX then (body i, false)
      else ((body i) ++ (intLoop bound body fuel (i + 1)).1, (intLoop bound body fuel (i + 1)).2)
    else ([], true)

/-- `peekFunction(key, set, matchingLetters, matchingStrings, currentStrIndex, keyChanged)`.
The two loops count with `auto i = 0`, an `int`, up to the `ulong` bounds
`currentStrIndex + 1` and `stringLength` (`intLoop`). A value that the text shows is taken
from the array with a default, next to the `read` event that records which element is
read. -/
def peekFunction (key : List Char) (set : StringSet) (matchingLetters : List Nat)
    (matchingStrings : List (List Nat)) (currentStrIndex : Nat) (keyChanged : Bool) :
    PeekRun :=
  let stringLength := set.stringLength
  let keyText := readString .key key stringLength
  let rowText := readString (.data currentStrIndex) (set.data.getD currentStrIndex [])
    stringLength
  let opening : List PeekEvent :=
    keyText.1 ++ [.cout ("Key: " ++ keyText.2 ++ (if keyChanged then " (new)\n" else "\n"))] ++
    rowText.1 ++ [.cout (setw3Left currentStrIndex ++ ": " ++ rowText.2 ++ "\n")] ++
    [.cout "mL:  "]
  let letters := intLoop ((currentStrIndex + 1) % 2 ^ 64) (fun i =>
    [.read (.matchingLetters i),
     .cout (toString i ++ "(" ++ toString (matchingLetters.getD i 0) ++ ")  ")])
    ((currentStrIndex + 1) % 2 ^ 64) 0
  if !letters.2 then ⟨opening ++ letters.1, false⟩
  else
    let strings := intLoop stringLength (fun i =>
      [.read (.key i), .read (.matchingStrings i),
       .cout (toString i ++ "(" ++ String.singleton (key.getD i ' ') ++ "): [" ++
         showList (matchingStrings.getD i []) ++ "]\n")]) stringLength 0
    if !strings.2 then ⟨opening ++ letters.1 ++ [.cout "\nmS:\n"] ++ strings.1, false⟩
    else ⟨opening ++ letters.1 ++ [.cout "\nmS:\n"] ++ strings.1 ++ [.cinGet], true⟩

/-- The element that a read names exists in the arguments of `peekFunction`. -/
def Read.InBounds (key : List Char) (set : StringSet) (matchingLetters : List Nat)
    (matchingStrings : List (List Nat)) : Read → Prop
  | .key i => i < key.length
  | .data str i => ∃ row, set.data[str]? = some row ∧ i < row.length
  | .matchingLetters i => i < matchingLetters.length
  | .matchingStrings i => i < matchingStrings.length

/-! ## The lines of a text -/

/-- The lines of a text: a newline character ends the line it follows, and the characters
after the last newline, if there are any, are a last line. -/
def stdinLines : List Char → List (List Char)
  | [] => []
  | c :: cs =>
    if c = '\n' then [] :: stdinLines cs
    else
      match stdinLines cs with
      | [] => [[c]]
      | l :: ls => (c :: l) :: ls

/-! ## The condition of the file error, in the words of the specification -/

/-- The standard input that `t1Mode` is to refuse: the first line is empty or has a character
outside `0`, `1`, `*`, or a later line has another length than the first or has a character
outside `0`, `1`, `*`. -/
def FileErrorCondition (cin : List Char) : Prop :=
  (stdinLines cin).headD [] = [] ∨
  (∃ c ∈ (stdinLines cin).headD [], ¬ (c = '0' ∨ c = '1' ∨ c = '*')) ∨
  ∃ l ∈ (stdinLines cin).tail,
    l.length ≠ ((stdinLines cin).headD []).length ∨ ∃ c ∈ l, ¬ (c = '0' ∨ c = '1' ∨ c = '*')

/-! ## The accepted `-t2` command lines, in the words of the usage text -/

/-- The generator options `a x b y`: `-n` and `-m`, each exactly once, in either order, each
followed by a number that `stoul` accepts. The result is the pair of the value that follows
`-n` and the value that follows `-m`. -/
def genOptionsSpec (a x b y : String) : Option (Nat × Nat) :=
  if a = "-n" ∧ b = "-m" then
    match stoul x, stoul y with
    | .ok n, .ok m => some (n, m)
    | _, _ => none
  else if a = "-m" ∧ b = "-n" then
    match stoul x, stoul y with
    | .ok m, .ok n => some (n, m)
    | _, _ => none
  else none

/-- The accepted `-t2` argument lists: `-t2 a x b y` and `-t2 -i a x b y` with accepted
generator options. The result is the interactive flag, the string length and the number of
strings. -/
def t2Accepted (args : List String) : Option (Bool × Nat × Nat) :=
  match args with
  | [t, a, x, b, y] =>
    if t = "-t2" then (genOptionsSpec a x b y).map (fun p => (false, p)) else none
  | [t, i, a, x, b, y] =>
    if t = "-t2" ∧ i = "-i" then (genOptionsSpec a x b y).map (fun p => (true, p)) else none
  | _ => none

/-- The events that are calls of a solver of `CommonStringFinder`. -/
def Event.isSolverCall : Event → Bool
  | .heuristic _ => true
  | .heuristicInteractive _ _ => true
  | .bruteForce _ => true
  | _ => false

/-! ## The solvers, modelled from the specification

`algorithm/CommonStringFinder.h` is not among the sources; the quality metric and the two
solvers follow sections 3 and 4 of the specification. -/

/-- Modelled from the spec: the `Result` of `CommonStringFinder` (sections 3 and 4.4), which is
missing from the sources: the center string and its quality score. -/
structure Result where
  center : List Char
  score : Nat
  deriving DecidableEq, Repr

/-- Modelled from the spec: the per-string mismatch count of section 4.1 (the Quality Metric
is missing from the sources): the number of positions `p` with `candidate[p] != s[p]` and
`s[p] != '*'`. -/
def mismatchCount (candidate s : List Char) : Nat :=
  (candidate.zip s).countP (fun p => p.1 != p.2 && p.2 != '*')

/-- Modelled from the spec: `score(candidate, stringSet)` of section 4.1 (missing from the
sources): the maximum per-string mismatch count over the set, 0 for the empty set. -/
def score (candidate : List Char) (set : StringSet) : Nat :=
  (set.data.map (mismatchCount candidate)).foldr max 0

/-- Modelled from the spec: the enumeration of section 4.3 (missing from the sources): every
binary string of length `n` once, in the order of the binary representations of
`0 .. 2^n - 1`, most significant position first. -/
def candidates : Nat → List (List Char)
  | 0 => [[]]
  | n + 1 => (candidates n).map ('0' :: ·) ++ (candidates n).map ('1' :: ·)

/-- Modelled from the spec: the retention rule of section 4.3 (missing from the sources): a
candidate replaces the retained one only when its score is strictly smaller. -/
def keepBest (set : StringSet) (best : Result) (candidate : List Char) : Result :=
  if score candidate set < best.score then ⟨candidate, score candidate set⟩ else best

/-- Modelled from the spec: `bruteForce(stringSet)` of section 4.3 (`CommonStringFinder` is
missing from the sources): every candidate is scored in enumeration order and the first one
with the smallest score is returned. -/
def bruteForce (set : StringSet) : Result :=
  match candidates set.stringLength with
  | [] => ⟨[], 0⟩
  | first :: rest => rest.foldl (keepBest set) ⟨first, score first set⟩

/-- Modelled from the spec: the heuristic working state of section 3 (missing from the
sources). An undecided position of `key` holds `none`. -/
structure HeuristicState where
  key : List (Option Char)
  matchCounts : List Nat
  positionGroups : List (List Nat)
  deriving DecidableEq, Repr

/-- Modelled from the spec: a character of an input string agrees with a position of `key`
(section 4.2, steps b and c; missing from the sources): a wildcard always agrees. -/
def agrees (k : Option Char) (c : Char) : Bool :=
  c == '*' || k == some c

/-- Modelled from the spec: the majority value at position `p` among the given strings
(section 4.2, step a; missing from the sources), a tie giving `0`. -/
def majorityAt (strings : List (List Char)) (p : Nat) : Char :=
  if strings.countP (fun s => s.getD p '*' == '0') <
      strings.countP (fun s => s.getD p '*' == '1') then '1' else '0'

/-- Modelled from the spec: step 2 of section 4.2 (missing from the sources) for the input
string at index `i`. (a) An undecided position takes the majority value of the strings
incorporated so far when the string has a concrete value there; on a wildcard it stays
undecided, unless this is the last string, where it becomes `0`. (b) The match count of the
string is appended. (c) The index joins the group of every position where the string agrees
with the key. -/
def incorporate (set : StringSet) (st : HeuristicState) (i : Nat) : HeuristicState :=
  let s := set.data.getD i []
  let key := (List.range set.stringLength).map (fun p =>
    match st.key.getD p none with
    | some v => some v
    | none =>
      if s.getD p '*' == '*' then (if i + 1 == set.numStrings then some '0' else none)
      else some (majorityAt (set.data.take (i + 1)) p))
  { key := key
    matchCounts := st.matchCounts ++
      [(List.range set.stringLength).countP (fun p => agrees (key.getD p none) (s.getD p '*'))]
    positionGroups := (List.range set.stringLength).map (fun p =>
      if agrees (key.getD p none) (s.getD p '*') then st.positionGroups.getD p [] ++ [i]
      else st.positionGroups.getD p []) }

/-- Modelled from the spec: `heuristic(stringSet)` of section 4.2 (`CommonStringFinder` is
missing from the sources): the strings are incorporated in their order, starting from an
undecided key; positions still undecided at the end (an empty set) are `0`; the score of the
result is recomputed from the final key. -/
def heuristic (set : StringSet) : Result :=
  let final := (List.range set.numStrings).foldl (incorporate set)
    ⟨List.replicate set.stringLength none, [], List.replicate set.stringLength []⟩
  let key := final.key.map (·.getD '0')
  ⟨key, score key set⟩

/-- The two facts on the key that every step of the heuristic keeps: it has `stringLength`
positions, and a decided position holds `0` or `1`. -/
def KeyInv (set : StringSet) (st : HeuristicState) : Prop :=
  st.key.length = set.stringLength ∧ ∀ k ∈ st.key, k = none ∨ k = some '0' ∨ k = some '1'

/-! ## An input of `peekFunction` beyond the range of `int` -/

/-- A set of one string of length `2^31 + 1`, as the command line
`-t2 -i -n 2147483649 -m 1` asks the generator for. -/
def longSet : StringSet :=
  ⟨2147483649, 1, [List.replicate 2147483649 '0']⟩

/-- A key for `longSet`. -/
def longKey : List Char :=
  List.replicate 2147483649 '0'

/-- The position groups for `longSet` after its string is incorporated. -/
def longGroups : List (List Nat) :=
  List.replicate 2147483649 [0]

/-! ## Lemmas on `getline` and the reading loop -/

theorem stdinLines_of_ne_nil (cin : List Char) (h : cin ≠ []) :
    stdinLines cin = (getline cin).2.1 :: stdinLines (getline cin).2.2 := by
  induction cin with
  | nil => exact absurd rfl h
  | cons c cs ih =>
    by_cases hc : c = '\n'
    · subst hc
      simp [stdinLines, getline]
    · cases cs with
      | nil => simp [stdinLines, getline, hc]
      | cons d ds =>
        have ih := ih (List.cons_ne_nil d ds)
        rw [stdinLines, if_neg hc, ih]
        simp [getline, hc, List.takeWhile_cons, List.dropWhile_cons]

theorem getline_rest_length_lt (cin : List Char) (h : cin ≠ []) :
    (getline cin).2.2.length < cin.length := by
  have h1 : (cin.dropWhile (· != '\n')).length ≤ cin.length :=
    (List.dropWhile_sublist _).length_le
  have h2 : 0 < cin.length := List.length_pos.mpr h
  simp only [getline, List.length_drop]
  omega

/-- With enough fuel the reading loop reads every line of the input: it fails exactly when one
of the lines does not match the format, and otherwise pushes all of them. -/
theorem readLoop_eq (n : Nat) :
    ∀ (fuel : Nat) (cin : List Char) (readData : List (List Char)), cin.length ≤ fuel →
      readLoop n fuel cin readData =
        if (stdinLines cin).all (matchFormat n) then some (readData ++ stdinLines cin)
        else none := by
  intro fuel
  induction fuel with
  | zero =>
    intro cin readData h
    have : cin = [] := List.length_eq_zero.mp (Nat.le_zero.mp h)
    subst this
    simp [readLoop, stdinLines]
  | succ fuel ih =>
    intro cin readData h
    by_cases hnil : cin = []
    · subst hnil
      simp [readLoop, stdinLines, getline]
    · have hlt := getline_rest_length_lt cin hnil
      have hlines := stdinLines_of_ne_nil cin hnil
      have hgood : (getline cin).1 = true := by
        cases cin with
        | nil => exact absurd rfl hnil
        | cons c cs => rfl
      rw [readLoop]
      rcases hg : getline cin with ⟨good, line, rest⟩
      rw [hg] at hlt hlines hgood
      simp only at hlt hlines hgood
      subst hgood
      simp only [hlines, List.all_cons]
      by_cases hm : matchFormat n line = true
      · simp only [hm, Bool.not_true, Bool.false_eq_true, if_false, Bool.true_and]
        rw [ih rest (readData ++ [line]) (by omega)]
        simp
      · simp [hm]

theorem getline_line_eq (cin : List Char) : (getline cin).2.1 = (stdinLines cin).headD [] := by
  by_cases h : cin = []
  · subst h; rfl
  · rw [stdinLines_of_ne_nil cin h]; rfl

theorem stdinLines_getline_rest (cin : List Char) :
    stdinLines (getline cin).2.2 = (stdinLines cin).tail := by
  by_cases h : cin = []
  · subst h; rfl
  · rw [stdinLines_of_ne_nil cin h]; rfl

theorem map_take_of_matchFormat (n : Nat) (rows : List (List Char))
    (h : rows.all (matchFormat n) = true) : rows.map (·.take n) = rows := by
  induction rows with
  | nil => rfl
  | cons r rs ih =>
    simp only [List.all_cons, Bool.and_eq_true] at h
    have hr : r.length = n := by
      have := h.1
      simp only [matchFormat, Bool.and_eq_true, beq_iff_eq] at this
      exact this.1
    simp only [List.map_cons, ih h.2]
    rw [List.take_of_length_le (by omega)]

/-- What `t1Mode` does on an accepted argument list, in terms of the lines of the input. -/
theorem t1Mode_eq (args : List String) (cin : List Char) (flag : Bool)
    (h : t1Args args = some flag) :
    t1Mode args cin =
      if matchFirstLine ((stdinLines cin).headD []) &&
          (stdinLines cin).tail.all (matchFormat ((stdinLines cin).headD []).length) then
        ⟨.solveOnce ⟨((stdinLines cin).headD []).length, (stdinLines cin).tail.length,
            (stdinLines cin).tail⟩ flag ::
          solveOnce ⟨((stdinLines cin).headD []).length, (stdinLines cin).tail.length,
            (stdinLines cin).tail⟩ flag, none⟩
      else ⟨[.cout "File error\n"], some kError⟩ := by
  have h1 := getline_line_eq cin
  have h2 := stdinLines_getline_rest cin
  unfold t1Mode
  rw [h]
  rcases hg : getline cin with ⟨good, line, rest⟩
  rw [hg] at h1 h2
  simp only at h1 h2
  rw [← h1]
  simp only
  by_cases hf : matchFirstLine line = true
  · simp only [hf, Bool.not_true, Bool.false_eq_true, if_false, Bool.true_and]
    rw [readLoop_eq _ _ _ _ (le_refl _), h2]
    by_cases ha : (stdinLines cin).tail.all (matchFormat line.length) = true
    · simp only [ha, if_true, List.nil_append, buildSet]
      rw [map_take_of_matchFormat _ _ ha]
    · simp only [ha, if_false]
      rfl
  · simp only [hf, Bool.not_false, if_true, Bool.false_and, Bool.false_eq_true, if_false]
    rfl

theorem solveOnce_not_mem_solveOnce (set set2 : StringSet) (flag flag2 : Bool) :
    Event.solveOnce set2 flag2 ∉ solveOnce set flag := by
  cases flag <;> simp [solveOnce]

theorem isAlphabetChar_iff (c : Char) :
    isAlphabetChar c = true ↔ c = '0' ∨ c = '1' ∨ c = '*' := by
  simp only [isAlphabetChar, Bool.or_eq_true, beq_iff_eq]
  tauto

theorem matchFirstLine_iff (s : List Char) :
    matchFirstLine s = true ↔ s ≠ [] ∧ ∀ c ∈ s, c = '0' ∨ c = '1' ∨ c = '*' := by
  simp only [matchFirstLine, Bool.and_eq_true, Bool.not_eq_true', List.isEmpty_eq_false,
    List.all_eq_true, isAlphabetChar_iff]

theorem matchFormat_iff (n : Nat) (s : List Char) :
    matchFormat n s = true ↔ s.length = n ∧ ∀ c ∈ s, c = '0' ∨ c = '1' ∨ c = '*' := by
  simp only [matchFormat, Bool.and_eq_true, beq_iff_eq, List.all_eq_true, isAlphabetChar_iff]

theorem fileErrorCondition_iff (cin : List Char) :
    FileErrorCondition cin ↔
      ¬ ((matchFirstLine ((stdinLines cin).headD []) &&
          (stdinLines cin).tail.all (matchFormat ((stdinLines cin).headD []).length)) = true) := by
  simp only [FileErrorCondition, Bool.and_eq_true, matchFirstLine_iff, List.all_eq_true,
    matchFormat_iff]
  constructor
  · rintro (h | ⟨c, hc, hbad⟩ | ⟨l, hl, hbad⟩) ⟨⟨hne, hall⟩, hrest⟩
    · exact hne h
    · exact hbad (hall c hc)
    · rcases hbad with hlen | ⟨c, hc, hbad⟩
      · exact hlen (hrest l hl).1
      · exact hbad ((hrest l hl).2 c hc)
  · intro h
    by_contra hcon
    apply h
    refine ⟨⟨fun he => hcon (Or.inl he), fun c hc => ?_⟩, fun l hl => ⟨?_, fun c hc => ?_⟩⟩
    · by_contra hb
      exact hcon (Or.inr (Or.inl ⟨c, hc, hb⟩))
    · by_contra hb
      exact hcon (Or.inr (Or.inr ⟨l, hl, Or.inl hb⟩))
    · by_contra hb
      exact hcon (Or.inr (Or.inr ⟨l, hl, Or.inr ⟨c, hc, hb⟩⟩))

theorem t1Args_of_accepted (args : List String)
    (hargs : args = ["-t1"] ∨ args = ["-t1", "-i"]) : ∃ flag, t1Args args = some flag := by
  rcases hargs with h | h <;> subst h
  · exact ⟨false, by decide⟩
  · exact ⟨true, by decide⟩

/-! ## The claims on `t1Mode` -/

/-- C1: whenever `t1Mode` calls `solveOnce`, the set it passes satisfies the `StringSet`
invariant: `stringLength` is at least 1, there are `numStrings` rows, and every row has exactly
`stringLength` characters, each of them `0`, `1` or `*`. -/
theorem t1Mode_passes_valid_set (args : List String) (cin : List Char) (set : StringSet)
    (flag : Bool) (h : Event.solveOnce set flag ∈ (t1Mode args cin).events) : set.Valid := by
  cases hargs : t1Args args with
  | none => simp [t1Mode, hargs] at h
  | some f =>
    rw [t1Mode_eq args cin f hargs] at h
    split at h
    · rename_i hcond
      simp only [List.mem_cons, Event.solveOnce.injEq] at h
      rcases h with ⟨hset, _⟩ | h
      · subst hset
        simp only [Bool.and_eq_true, matchFirstLine_iff, List.all_eq_true, matchFormat_iff]
          at hcond
        refine ⟨?_, rfl, hcond.2⟩
        exact Nat.succ_le_of_lt (List.length_pos.mpr hcond.1.1)
      · exact absurd h (solveOnce_not_mem_solveOnce _ _ _ _)
    · simp at h

theorem t1Mode_passes_valid_set_witness :
    Event.solveOnce ⟨3, 2, ["011".toList, "110".toList]⟩ false ∈
        (t1Mode ["-t1"] "010\n011\n110".toList).events ∧
      StringSet.Valid ⟨3, 2, ["011".toList, "110".toList]⟩ :=
  ⟨by decide, t1Mode_passes_valid_set ["-t1"] "010\n011\n110".toList _ false (by decide)⟩

/-- What `t1Mode` does on an accepted `-t1` argument list: on an input that is to be refused
it prints "File error" and returns `kError`, and nothing else; on every other input it calls
`solveOnce` and then reaches its closing brace without a `return` statement. -/
theorem t1Mode_outcome (args : List String) (cin : List Char)
    (hargs : args = ["-t1"] ∨ args = ["-t1", "-i"]) :
    (FileErrorCondition cin → t1Mode args cin = ⟨[.cout "File error\n"], some kError⟩) ∧
    (¬ FileErrorCondition cin →
      (∃ set flag, (t1Mode args cin).events.head? = some (.solveOnce set flag)) ∧
        (t1Mode args cin).ret = none) := by
  obtain ⟨f, hf⟩ := t1Args_of_accepted args hargs
  rw [t1Mode_eq args cin f hf, fileErrorCondition_iff]
  split
  · rename_i hcond
    exact ⟨fun h => absurd hcond h, fun _ => ⟨⟨_, _, rfl⟩, rfl⟩⟩
  · rename_i hcond
    exact ⟨fun _ => rfl, fun h => absurd hcond h⟩

/-- C2, evaluated on the valid input of the two lines `01` and `1*`: `t1Mode` calls `solveOnce`
and then reaches the closing brace of the `int` function without a `return` statement
(`ret = none`). The behaviour is undefined from there, so the source does not keep
"File error" from being printed after the set is solved, and no status is returned. -/
theorem t1Mode_valid_input_no_return :
    (t1Mode ["-t1"] "01\n1*\n".toList).events.head? =
        some (.solveOnce ⟨2, 1, ["1*".toList]⟩ false) ∧
      (t1Mode ["-t1"] "01\n1*\n".toList).ret = none := by
  decide

/-- C4, evaluated on the input of the claim: for the three lines `010`, `011`, `110` the set
that `t1Mode` hands to `solveOnce` has two strings, `011` and `110`; the first line is only
used for its length. -/
theorem t1Mode_drops_first_line :
    t1Mode ["-t1"] "010\n011\n110".toList =
      ⟨.solveOnce ⟨3, 2, ["011".toList, "110".toList]⟩ false ::
        solveOnce ⟨3, 2, ["011".toList, "110".toList]⟩ false, none⟩ := by
  decide

/-! ## The claims on `t2Mode` and `t3Mode` -/

/-- C3, evaluated on the arguments `-t2 -n 0 -m 1`: `t2Mode` calls the generator with
`stringLength = 0`, hands the set it returns to `solveOnce`, and does not return `kError`. -/
theorem t2Mode_accepts_zero_length (gen : Nat → Nat → StringSet) :
    t2Mode gen ["-t2", "-n", "0", "-m", "1"] =
      ⟨.generateStringSet 0 1 :: .solveOnce (gen 0 1) false :: solveOnce (gen 0 1) false,
        none⟩ := by
  rfl

theorem t2Step_pair (args : List String) (goi : Nat) (a x b y : String)
    (e0 : args[goi]? = some a) (e1 : args.getD (goi + 1) "" = x)
    (e2 : args[goi + 2]? = some b) (e3 : args.getD (goi + 2 + 1) "" = y) :
    (t2Step args goi ⟨false, false, 0, 0⟩).bind (t2Step args (goi + 2)) =
      (genOptionsSpec a x b y).map (fun p => ⟨true, true, p.1, p.2⟩) := by
  have hn : ("-n" : String) ≠ "-m" := by decide
  have hm : ("-m" : String) ≠ "-n" := by decide
  simp only [t2Step, e0, e1, e2, e3, genOptionsSpec, Option.some.injEq]
  by_cases ha : a = "-n"
  · subst ha
    by_cases hb : b = "-m"
    · subst hb
      cases stoul x <;> cases stoul y <;> simp [hn]
    · by_cases hb2 : b = "-n"
      · subst hb2
        cases stoul x <;> simp [hn]
      · cases stoul x <;> simp [hn, hb, hb2]
  · by_cases ha2 : a = "-m"
    · subst ha2
      by_cases hb : b = "-n"
      · subst hb
        cases stoul x <;> cases stoul y <;> simp [hm]
      · by_cases hb2 : b = "-m"
        · subst hb2
          cases stoul x <;> simp [hm]
        · cases stoul x <;> simp [hm, hb, hb2]
    · simp [ha, ha2]

/-- `t2Mode` does what the accepted command lines say: on an accepted one it calls the
generator and `solveOnce`, on every other one it only returns `kError`. -/
theorem t2Mode_eq (gen : Nat → Nat → StringSet) (args : List String)
    (h : args.head? = some "-t2") :
    t2Mode gen args =
      match t2Accepted args with
      | some (flag, n, m) =>
        ⟨.generateStringSet n m :: .solveOnce (gen n m) flag :: solveOnce (gen n m) flag, none⟩
      | none => ⟨[], some kError⟩ := by
  match args, h with
  | [], h => simp at h
  | [t], _ => rfl
  | [t, _], _ => rfl
  | [t, _, _], _ => rfl
  | [t, _, _, _], _ => rfl
  | [t, a, x, b, y], h =>
    simp only [List.head?_cons, Option.some.injEq] at h
    subst h
    have hs := t2Step_pair ["-t2", a, x, b, y] 1 a x b y rfl rfl rfl rfl
    simp only [Nat.reduceAdd] at hs
    simp only [t2Mode, t2Args, List.length_cons, List.length_nil, if_true, Bool.false_eq_true,
      if_false, hs, t2Accepted]
    cases genOptionsSpec a x b y <;> rfl
  | [t, i, a, x, b, y], h =>
    simp only [List.head?_cons, Option.some.injEq] at h
    subst h
    by_cases hi : i = "-i"
    · subst hi
      have hs := t2Step_pair ["-t2", "-i", a, x, b, y] 2 a x b y rfl rfl rfl rfl
      simp only [Nat.reduceAdd] at hs
      have h1 : (["-t2", "-i", a, x, b, y] : List String)[1]? = some "-i" := rfl
      simp only [t2Mode, t2Args, List.length_cons, List.length_nil, h1, if_true, hs, t2Accepted,
        and_self]
      simp only [Nat.reduceAdd, Nat.reduceEqDiff, if_false, if_true]
      rw [hs]
      cases genOptionsSpec a x b y <;> rfl
    · have h1 : (["-t2", i, a, x, b, y] : List String)[1]? = some i := rfl
      simp [t2Mode, t2Args, h1, hi, t2Accepted]
  | _ :: _ :: _ :: _ :: _ :: _ :: _ :: _, _ =>
    simp [t2Mode, t2Args, t2Accepted]

/-- C8: `t2Mode` reaches the generator if and only if the argument list is an accepted one:
`-t2 a x b y` or `-t2 -i a x b y`, the options `-n` and `-m` each exactly once in either
order, both numbers accepted by `stoul`. It then calls the generator with the value after
`-n` as string length and the value after `-m` as number of strings; in every other case it
returns `kError` and calls neither the generator nor `solveOnce`. -/
theorem t2Mode_reaches_generator_iff (gen : Nat → Nat → StringSet) (args : List String)
    (h : args.head? = some "-t2") :
    ((∃ n m, Event.generateStringSet n m ∈ (t2Mode gen args).events) ↔
      (t2Accepted args).isSome = true) ∧
    (∀ flag n m, t2Accepted args = some (flag, n, m) →
      (t2Mode gen args).events =
        .generateStringSet n m :: .solveOnce (gen n m) flag :: solveOnce (gen n m) flag) ∧
    (t2Accepted args = none → t2Mode gen args = ⟨[], some kError⟩) := by
  rw [t2Mode_eq gen args h]
  cases hacc : t2Accepted args with
  | none => simp
  | some r =>
    obtain ⟨flag, n, m⟩ := r
    refine ⟨⟨fun _ => rfl, fun _ => ⟨n, m, List.mem_cons_self _ _⟩⟩, ?_, ?_⟩
    · intro flag2 n2 m2 heq
      simp only [Option.some.injEq, Prod.mk.injEq] at heq
      obtain ⟨rfl, rfl, rfl⟩ := heq
      rfl
    · intro hnone
      simp at hnone

theorem t2Mode_reaches_generator_iff_witness :
    (["-t2", "-i", "-m", "4", "-n", "3"] : List String).head? = some "-t2" ∧
    t2Accepted ["-t2", "-i", "-m", "4", "-n", "3"] = some (true, 3, 4) ∧
    (t2Mode (fun n m => ⟨n, m, List.replicate m (List.replicate n '0')⟩)
        ["-t2", "-i", "-m", "4", "-n", "3"]).events.head? =
      some (.generateStringSet 3 4) :=
  ⟨rfl, by decide, by
    rw [(t2Mode_reaches_generator_iff (fun n m => ⟨n, m, List.replicate m (List.replicate n '0')⟩)
      ["-t2", "-i", "-m", "4", "-n", "3"] rfl).2.1 true 3 4 (by decide)]
    rfl⟩

/-- C5, evaluated: for every argument list `t3Mode` has no effect at all (no call of the
generator, no output) and executes no `return` statement. -/
theorem t3Mode_does_nothing (args : List String) :
    (t3Mode args).events = [] ∧ (t3Mode args).ret = none :=
  ⟨rfl, rfl⟩

/-! ## The claims on `solveOnce` and `peekFunction` -/

theorem t2Step_some (args : List String) (i : Nat) (o o2 : GenOptions)
    (h : t2Step args i o = some o2) : args[i]? = some "-n" ∨ args[i]? = some "-m" := by
  unfold t2Step at h
  by_cases hn : args[i]? = some "-n"
  · exact Or.inl hn
  · by_cases hm : args[i]? = some "-m"
    · exact Or.inr hm
    · simp [hn, hm] at h

/-- C9: the heuristic runs in interactive mode exactly when `-i` is given. A call of
`solveOnce` by `t1Mode` or by `t2Mode` has `withInteractiveMode = true` if and only if the
second argument is `-i`; and `solveOnce` calls exactly one of `heuristicInteractive` (with the
observer `peekFunction`, when the flag is true) and `heuristic` (when it is false), once, and
after it `bruteForce`, once, on the same set. -/
theorem interactive_iff_dash_i (gen : Nat → Nat → StringSet) (args1 args2 : List String)
    (cin : List Char) (set : StringSet) (flag : Bool) :
    (Event.solveOnce set flag ∈ (t1Mode args1 cin).events →
      (flag = true ↔ args1[1]? = some "-i")) ∧
    (Event.solveOnce set flag ∈ (t2Mode gen args2).events →
      (flag = true ↔ args2[1]? = some "-i")) ∧
    (solveOnce set flag).filter Event.isSolverCall =
      [if flag then .heuristicInteractive set .peekFunction else .heuristic set,
        .bruteForce set] := by
  refine ⟨?_, ?_, ?_⟩
  · intro h
    unfold t1Mode at h
    cases hargs : t1Args args1 with
    | none => simp [hargs] at h
    | some f =>
      have hf : f = true ↔ args1[1]? = some "-i" := by
        unfold t1Args at hargs
        split_ifs at hargs with h2 h3 h4
        · simp only [Option.some.injEq] at hargs
          subst hargs
          simp [h3]
        · simp only [Option.some.injEq] at hargs
          subst hargs
          have : args1[1]? = none := List.getElem?_eq_none (by omega)
          simp [this]
      have hflag : flag = f := by
        simp only [hargs] at h
        split at h
        · simp at h
        · split at h
          · simp at h
          · simp only [List.mem_cons, Event.solveOnce.injEq] at h
            rcases h with ⟨_, hfl⟩ | h
            · exact hfl
            · exact absurd h (solveOnce_not_mem_solveOnce _ _ _ _)
      rw [hflag]
      exact hf
  · intro h
    unfold t2Mode at h
    cases hargs : t2Args args2 with
    | none => simp [hargs] at h
    | some f =>
      simp only [hargs] at h
      split at h
      · simp at h
      · rename_i o hstep
        have hflag : flag = f := by
          simp only [List.mem_cons, reduceCtorEq, false_or, Event.solveOnce.injEq] at h
          rcases h with ⟨_, hfl⟩ | h
          · exact hfl
          · exact absurd h (solveOnce_not_mem_solveOnce _ _ _ _)
        subst hflag
        unfold t2Args at hargs
        split_ifs at hargs with h5 h6 h7
        · simp only [Option.some.injEq] at hargs
          subst hargs
          simp only [Bool.false_eq_true, if_false, Option.bind_eq_some] at hstep
          obtain ⟨o1, ho1, _⟩ := hstep
          have hne1 : ("-n" : String) ≠ "-i" := by decide
          have hne2 : ("-m" : String) ≠ "-i" := by decide
          rcases t2Step_some _ _ _ _ ho1 with hh | hh <;> simp [hh, hne1, hne2]
        · simp only [Option.some.injEq] at hargs
          subst hargs
          simp [h7]
  · cases flag <;> rfl

theorem interactive_iff_dash_i_witness :
    ((true = true ↔ (["-t1", "-i"] : List String)[1]? = some "-i") ∧
      (true = true ↔ (["-t2", "-i", "-n", "2", "-m", "0"] : List String)[1]? = some "-i")) ∧
    Event.solveOnce ⟨2, 0, []⟩ true ∈ (t1Mode ["-t1", "-i"] "0*\n".toList).events ∧
    Event.solveOnce ⟨2, 0, []⟩ true ∈
      (t2Mode (fun n m => ⟨n, m, List.replicate m (List.replicate n '0')⟩)
        ["-t2", "-i", "-n", "2", "-m", "0"]).events :=
  ⟨⟨(interactive_iff_dash_i (fun n m => ⟨n, m, List.replicate m (List.replicate n '0')⟩)
        ["-t1", "-i"] ["-t2", "-i", "-n", "2", "-m", "0"] "0*\n".toList ⟨2, 0, []⟩ true).1
        (by decide),
      (interactive_iff_dash_i (fun n m => ⟨n, m, List.replicate m (List.replicate n '0')⟩)
        ["-t1", "-i"] ["-t2", "-i", "-n", "2", "-m", "0"] "0*\n".toList ⟨2, 0, []⟩ true).2.1
        (by decide)⟩,
    by decide, by decide⟩

theorem mem_readString (read : Nat → Read) (p : List Char) (n : Nat) (e : PeekEvent) :
    e ∈ (readString read p n).1 ↔ ∃ i, i < n ∧ e = .read (read i) := by
  simp only [readString, List.mem_map, List.mem_range]
  constructor
  · rintro ⟨i, hi, rfl⟩
    exact ⟨i, hi, rfl⟩
  · rintro ⟨i, hi, rfl⟩
    exact ⟨i, hi, rfl⟩

/-- The loop over an `int` counter runs its body for the counter values below the bound that
an `int` can hold, and ends by its condition exactly when the bound is at most `INT_MAX`. -/
theorem intLoop_spec (bound : Nat) (body : Nat → List PeekEvent) :
    ∀ (fuel i : Nat), bound ≤ i + fuel → i ≤ INT_MAX →
      (intLoop bound body fuel i).2 = decide (bound ≤ INT_MAX) ∧
      ∀ e, e ∈ (intLoop bound body fuel i).1 ↔
        ∃ j, i ≤ j ∧ j < bound ∧ j ≤ INT_MAX ∧ e ∈ body j := by
  intro fuel
  induction fuel with
  | zero =>
    intro i hb hi
    have hle : bound ≤ INT_MAX := by omega
    refine ⟨by simp [intLoop, hle], fun e => ?_⟩
    simp only [intLoop, List.not_mem_nil, false_iff]
    rintro ⟨j, h1, h2, _⟩
    omega
  | succ fuel ih =>
    intro i hb hi
    rw [intLoop]
    by_cases hlt : i < bound
    · by_cases hmax : i = INT_MAX
      · subst hmax
        have hnle : ¬ bound ≤ INT_MAX := by omega
        refine ⟨by simp [hlt, hnle], fun e => ?_⟩
        simp only [hlt, if_true]
        constructor
        · intro he
          exact ⟨INT_MAX, le_refl _, hlt, le_refl _, he⟩
        · rintro ⟨j, h1, _, h3, he⟩
          have : j = INT_MAX := by omega
          exact this ▸ he
      · obtain ⟨ih1, ih2⟩ := ih (i + 1) (by omega) (by omega)
        refine ⟨by simp [hlt, hmax, ih1], fun e => ?_⟩
        simp only [hlt, hmax, if_true, if_false, List.mem_append, ih2]
        constructor
        · rintro (he | ⟨j, h1, h2, h3, he⟩)
          · exact ⟨i, le_refl _, hlt, hi, he⟩
          · exact ⟨j, by omega, h2, h3, he⟩
        · rintro ⟨j, h1, h2, h3, he⟩
          by_cases hj : j = i
          · exact Or.inl (hj ▸ he)
          · exact Or.inr ⟨j, by omega, h2, h3, he⟩
    · have hle : bound ≤ INT_MAX := by omega
      refine ⟨by simp [hlt, hle], fun e => ?_⟩
      simp only [hlt, if_false, List.not_mem_nil, false_iff]
      rintro ⟨j, h1, h2, _⟩
      omega

theorem int_max_eq : INT_MAX = 2147483647 := by decide

/-- The elements that `peekFunction` reads when both loop bounds are in the range of `int`,
and that it then runs to its end. -/
theorem read_mem_peekFunction (key : List Char) (set : StringSet) (matchingLetters : List Nat)
    (matchingStrings : List (List Nat)) (currentStrIndex : Nat) (keyChanged : Bool)
    (hlength : set.stringLength ≤ INT_MAX) (hindex : currentStrIndex < INT_MAX) :
    (peekFunction key set matchingLetters matchingStrings currentStrIndex keyChanged).defined
        = true ∧
    ∀ r, PeekEvent.read r ∈
        (peekFunction key set matchingLetters matchingStrings currentStrIndex keyChanged).events ↔
      (∃ i, i < set.stringLength ∧ r = .key i) ∨
      (∃ i, i < set.stringLength ∧ r = .data currentStrIndex i) ∨
      (∃ i, i < currentStrIndex + 1 ∧ r = .matchingLetters i) ∨
      (∃ i, i < set.stringLength ∧ r = .matchingStrings i) := by
  have hmod : (currentStrIndex + 1) % 2 ^ 64 = currentStrIndex + 1 := by
    have := int_max_eq
    exact Nat.mod_eq_of_lt (by omega)
  have hL : currentStrIndex + 1 ≤ INT_MAX := hindex
  have h0 : (0 : Nat) ≤ INT_MAX := Nat.zero_le _
  simp only [peekFunction, hmod]
  obtain ⟨l1, l2⟩ := intLoop_spec (currentStrIndex + 1) (fun i =>
    [PeekEvent.read (.matchingLetters i),
     .cout (toString i ++ "(" ++ toString (matchingLetters.getD i 0) ++ ")  ")])
    (currentStrIndex + 1) 0 (by omega) h0
  obtain ⟨s1, s2⟩ := intLoop_spec set.stringLength (fun i =>
    [PeekEvent.read (.key i), .read (.matchingStrings i),
     .cout (toString i ++ "(" ++ String.singleton (key.getD i ' ') ++ "): [" ++
       showList (matchingStrings.getD i []) ++ "]\n")]) set.stringLength 0 (by omega) h0
  simp only [hL, decide_True] at l1
  simp only [hlength, decide_True] at s1
  simp only [l1, s1, Bool.not_true, Bool.false_eq_true, if_false, true_and]
  intro r
  simp only [List.mem_append, mem_readString, l2, s2, List.mem_cons, List.mem_singleton,
    PeekEvent.read.injEq, reduceCtorEq, or_false, false_or, List.not_mem_nil, Nat.zero_le,
    true_and]
  constructor
  · rintro (((⟨i, hi, rfl⟩ | ⟨i, hi, rfl⟩) | ⟨i, hi, _, rfl⟩) | ⟨i, hi, _, rfl | rfl⟩)
    · exact Or.inl ⟨i, hi, rfl⟩
    · exact Or.inr (Or.inl ⟨i, hi, rfl⟩)
    · exact Or.inr (Or.inr (Or.inl ⟨i, hi, rfl⟩))
    · exact Or.inl ⟨i, hi, rfl⟩
    · exact Or.inr (Or.inr (Or.inr ⟨i, hi, rfl⟩))
  · rintro (⟨i, hi, rfl⟩ | ⟨i, hi, rfl⟩ | ⟨i, hi, rfl⟩ | ⟨i, hi, rfl⟩)
    · exact Or.inl (Or.inl (Or.inl ⟨i, hi, rfl⟩))
    · exact Or.inl (Or.inl (Or.inr ⟨i, hi, rfl⟩))
    · exact Or.inl (Or.inr ⟨i, hi, by omega, rfl⟩)
    · exact Or.inr ⟨i, hi, by omega, Or.inr rfl⟩

/-- Within the range of `int`, `peekFunction` reads only what the solver declares valid. When
`stringLength` and `currentStrIndex + 1` are at most `INT_MAX`, `key` and `matchingStrings`
have `stringLength` entries, `matchingLetters` has `currentStrIndex + 1` entries and
`currentStrIndex < numStrings` (in a set whose storage has the announced shape),
`peekFunction` runs to its end, every element it reads is in bounds, and it reads exactly the
entries `0 .. currentStrIndex` of `matchingLetters`, exactly the positions
`0 .. stringLength - 1` of `key` and of `matchingStrings`, and of the set only row
`currentStrIndex`, at exactly the positions `0 .. stringLength - 1`. -/
theorem peekFunction_reads_within_int_range (key : List Char) (set : StringSet)
    (matchingLetters : List Nat) (matchingStrings : List (List Nat)) (currentStrIndex : Nat)
    (keyChanged : Bool) (hlength : set.stringLength ≤ INT_MAX)
    (hrange : currentStrIndex < INT_MAX) (hkey : key.length = set.stringLength)
    (hgroups : matchingStrings.length = set.stringLength)
    (hcounts : matchingLetters.length = currentStrIndex + 1)
    (hindex : currentStrIndex < set.numStrings) (hset : set.Allocated) :
    (peekFunction key set matchingLetters matchingStrings currentStrIndex keyChanged).defined
        = true ∧
    (∀ r, PeekEvent.read r ∈
        (peekFunction key set matchingLetters matchingStrings currentStrIndex keyChanged).events →
      r.InBounds key set matchingLetters matchingStrings) ∧
    (∀ i, PeekEvent.read (.matchingLetters i) ∈
        (peekFunction key set matchingLetters matchingStrings currentStrIndex keyChanged).events ↔
      i ≤ currentStrIndex) ∧
    (∀ i, PeekEvent.read (.key i) ∈
        (peekFunction key set matchingLetters matchingStrings currentStrIndex keyChanged).events ↔
      i < set.stringLength) ∧
    (∀ i, PeekEvent.read (.matchingStrings i) ∈
        (peekFunction key set matchingLetters matchingStrings currentStrIndex keyChanged).events ↔
      i < set.stringLength) ∧
    (∀ str i, PeekEvent.read (.data str i) ∈
        (peekFunction key set matchingLetters matchingStrings currentStrIndex keyChanged).events ↔
      str = currentStrIndex ∧ i < set.stringLength) := by
  obtain ⟨hdef, hmem⟩ := read_mem_peekFunction key set matchingLetters matchingStrings
    currentStrIndex keyChanged hlength hrange
  refine ⟨hdef, ?_, ?_, ?_, ?_, ?_⟩
  · intro r hr
    rw [hmem] at hr
    rcases hr with ⟨i, hi, rfl⟩ | ⟨i, hi, rfl⟩ | ⟨i, hi, rfl⟩ | ⟨i, hi, rfl⟩
    · show i < key.length
      omega
    · have hlt : currentStrIndex < set.data.length := hset.1 ▸ hindex
      refine ⟨set.data[currentStrIndex], List.getElem?_eq_getElem hlt, ?_⟩
      rw [hset.2 _ (List.getElem_mem hlt)]
      exact hi
    · show i < matchingLetters.length
      omega
    · show i < matchingStrings.length
      omega
  · intro i
    rw [hmem]
    simp [Nat.lt_succ_iff]
  · intro i
    rw [hmem]
    simp
  · intro i
    rw [hmem]
    simp
  · intro str i
    rw [hmem]
    simp only [reduceCtorEq, and_false, exists_false, false_or, or_false, Read.data.injEq]
    constructor
    · rintro ⟨j, hj, h1, h2⟩
      exact ⟨h1, h2 ▸ hj⟩
    · rintro ⟨h1, h2⟩
      exact ⟨i, h2, h1, rfl⟩

theorem peekFunction_reads_within_int_range_witness :
    Read.InBounds "01".toList ⟨2, 2, ["0*".toList, "11".toList]⟩ [2, 1] [[0], [1]]
      (.matchingLetters 1) :=
  (peekFunction_reads_within_int_range "01".toList ⟨2, 2, ["0*".toList, "11".toList]⟩ [2, 1]
    [[0], [1]] 1 true (by decide) (by decide) rfl rfl rfl (by decide) ⟨rfl, by decide⟩).2.1
    (.matchingLetters 1) (by decide)

/-- Beyond the range of `int`: when `stringLength` exceeds `INT_MAX`, the second loop of
`peekFunction` increments its counter at `INT_MAX`, and up to there no position of
`matchingStrings` above `INT_MAX` is read. -/
theorem peekFunction_overflow (key : List Char) (set : StringSet) (matchingLetters : List Nat)
    (matchingStrings : List (List Nat)) (currentStrIndex : Nat) (keyChanged : Bool)
    (hlength : INT_MAX < set.stringLength) (hindex : currentStrIndex < INT_MAX) :
    (peekFunction key set matchingLetters matchingStrings currentStrIndex keyChanged).defined
        = false ∧
    ∀ i, PeekEvent.read (.matchingStrings i) ∈
        (peekFunction key set matchingLetters matchingStrings currentStrIndex keyChanged).events →
      i ≤ INT_MAX := by
  have hmod : (currentStrIndex + 1) % 2 ^ 64 = currentStrIndex + 1 := by
    have := int_max_eq
    exact Nat.mod_eq_of_lt (by omega)
  have hL : currentStrIndex + 1 ≤ INT_MAX := hindex
  have hn : ¬ set.stringLength ≤ INT_MAX := by omega
  have h0 : (0 : Nat) ≤ INT_MAX := Nat.zero_le _
  simp only [peekFunction, hmod]
  obtain ⟨l1, l2⟩ := intLoop_spec (currentStrIndex + 1) (fun i =>
    [PeekEvent.read (.matchingLetters i),
     .cout (toString i ++ "(" ++ toString (matchingLetters.getD i 0) ++ ")  ")])
    (currentStrIndex + 1) 0 (by omega) h0
  obtain ⟨s1, s2⟩ := intLoop_spec set.stringLength (fun i =>
    [PeekEvent.read (.key i), .read (.matchingStrings i),
     .cout (toString i ++ "(" ++ String.singleton (key.getD i ' ') ++ "): [" ++
       showList (matchingStrings.getD i []) ++ "]\n")]) set.stringLength 0 (by omega) h0
  simp only [hL, decide_True] at l1
  simp only [hn, decide_False] at s1
  simp only [l1, s1, Bool.not_true, Bool.not_false, Bool.false_eq_true, if_false, if_true,
    true_and]
  intro i
  simp only [List.mem_append, mem_readString, l2, s2, List.mem_cons, List.mem_singleton,
    PeekEvent.read.injEq, reduceCtorEq, or_false, false_or, List.not_mem_nil, Nat.zero_le,
    true_and, and_false, exists_false, Read.matchingStrings.injEq]
  rintro ⟨j, _, hj, rfl⟩
  exact hj

/-- C7, evaluated on the call of `peekFunction` for the one string of a set of string length
`2^31 + 1` (command line `-t2 -i -n 2147483649 -m 1`): the preconditions of the claim hold
(`key` and `matchingStrings` have `stringLength` entries, `matchingLetters` has
`currentStrIndex + 1 = 1` entry, `currentStrIndex = 0 < numStrings`), yet the `int` counter
of the loop over the positions is incremented at `INT_MAX`, a signed overflow (`defined` is
false), and position `2^31` of `matchingStrings`, which is below `stringLength`, is not read
up to there. -/
theorem peekFunction_int_counter_overflow :
    (longKey.length = longSet.stringLength ∧ longGroups.length = longSet.stringLength ∧
      [2147483649].length = 0 + 1 ∧ 0 < longSet.numStrings ∧ longSet.Allocated) ∧
    (peekFunction longKey longSet [2147483649] longGroups 0 true).defined = false ∧
    PeekEvent.read (.matchingStrings 2147483648) ∉
      (peekFunction longKey longSet [2147483649] longGroups 0 true).events := by
  have hlen : INT_MAX < longSet.stringLength := by
    rw [int_max_eq]
    show 2147483647 < 2147483649
    omega
  have hidx : 0 < INT_MAX := by
    rw [int_max_eq]
    omega
  obtain ⟨h1, h2⟩ := peekFunction_overflow longKey longSet [2147483649] longGroups 0 true
    hlen hidx
  refine ⟨⟨List.length_replicate _ _, List.length_replicate _ _, rfl, Nat.zero_lt_one,
    rfl, ?_⟩, h1, fun h => ?_⟩
  · intro s hs
    have hs2 : s = List.replicate 2147483649 '0' := List.mem_singleton.mp hs
    rw [hs2]
    exact List.length_replicate _ _
  · have := h2 _ h
    rw [int_max_eq] at this
    omega

/-! ## The claim on the two solvers -/

theorem mem_candidates :
    ∀ (n : Nat) (l : List Char), l.length = n → (∀ c ∈ l, c = '0' ∨ c = '1') →
      l ∈ candidates n := by
  intro n
  induction n with
  | zero =>
    intro l hl _
    have : l = [] := List.length_eq_zero.mp hl
    subst this
    simp [candidates]
  | succ n ih =>
    intro l hl hbin
    cases l with
    | nil => simp at hl
    | cons c cs =>
      have hcs : cs ∈ candidates n :=
        ih cs (by simpa using hl) (fun d hd => hbin d (List.mem_cons_of_mem _ hd))
      simp only [candidates, List.mem_append, List.mem_map, List.cons.injEq]
      rcases hbin c (List.mem_cons_self _ _) with hc | hc
      · exact Or.inl ⟨cs, hcs, hc.symm, rfl⟩
      · exact Or.inr ⟨cs, hcs, hc.symm, rfl⟩

theorem keepBest_score_le (set : StringSet) (best : Result) (candidate : List Char) :
    (keepBest set best candidate).score ≤ best.score ∧
      (keepBest set best candidate).score ≤ score candidate set := by
  unfold keepBest
  split_ifs with h
  · exact ⟨Nat.le_of_lt h, le_refl _⟩
  · exact ⟨le_refl _, Nat.le_of_not_lt h⟩

theorem foldl_keepBest_score_le (set : StringSet) :
    ∀ (cs : List (List Char)) (best : Result),
      (cs.foldl (keepBest set) best).score ≤ best.score ∧
        ∀ c ∈ cs, (cs.foldl (keepBest set) best).score ≤ score c set := by
  intro cs
  induction cs with
  | nil =>
    intro best
    simp
  | cons d ds ih =>
    intro best
    have h1 := keepBest_score_le set best d
    have h2 := ih (keepBest set best d)
    simp only [List.foldl_cons, List.mem_cons]
    refine ⟨le_trans h2.1 h1.1, ?_⟩
    rintro c (rfl | hc)
    · exact le_trans h2.1 h1.2
    · exact h2.2 c hc

/-- The brute force is optimal: no candidate of the enumeration scores below its result. -/
theorem bruteForce_optimal (set : StringSet) (c : List Char)
    (hc : c ∈ candidates set.stringLength) : (bruteForce set).score ≤ score c set := by
  unfold bruteForce
  cases hcand : candidates set.stringLength with
  | nil => simp [hcand] at hc
  | cons first rest =>
    rw [hcand] at hc
    have h := foldl_keepBest_score_le set rest ⟨first, score first set⟩
    simp only
    rcases List.mem_cons.mp hc with rfl | hrest
    · exact h.1
    · exact h.2 c hrest

theorem majorityAt_binary (strings : List (List Char)) (p : Nat) :
    majorityAt strings p = '0' ∨ majorityAt strings p = '1' := by
  unfold majorityAt
  split_ifs
  · exact Or.inr rfl
  · exact Or.inl rfl

theorem getD_none_of_inv (key : List (Option Char))
    (h : ∀ k ∈ key, k = none ∨ k = some '0' ∨ k = some '1') (p : Nat) :
    key.getD p none = none ∨ key.getD p none = some '0' ∨ key.getD p none = some '1' := by
  rw [List.getD_eq_getElem?_getD]
  cases hp : key[p]? with
  | none => exact Or.inl rfl
  | some k => exact h k (List.getElem?_mem hp)

theorem incorporate_keyInv (set : StringSet) (st : HeuristicState) (i : Nat)
    (h : KeyInv set st) : KeyInv set (incorporate set st i) := by
  refine ⟨by simp [incorporate], ?_⟩
  intro k hk
  simp only [incorporate, List.mem_map, List.mem_range] at hk
  obtain ⟨p, _, rfl⟩ := hk
  rcases getD_none_of_inv st.key h.2 p with hp | hp | hp
  · rw [hp]
    simp only
    split_ifs
    · exact Or.inr (Or.inl rfl)
    · exact Or.inl rfl
    · rcases majorityAt_binary (List.take (i + 1) set.data) p with hm | hm
      · exact Or.inr (Or.inl (congrArg some hm))
      · exact Or.inr (Or.inr (congrArg some hm))
  · rw [hp]
    exact Or.inr (Or.inl rfl)
  · rw [hp]
    exact Or.inr (Or.inr rfl)

theorem foldl_incorporate_keyInv (set : StringSet) :
    ∀ (is : List Nat) (st : HeuristicState), KeyInv set st →
      KeyInv set (is.foldl (incorporate set) st) := by
  intro is
  induction is with
  | nil => intro st h; exact h
  | cons i is ih => intro st h; exact ih _ (incorporate_keyInv set st i h)

/-- The center that the heuristic returns is one of the candidates of the brute force. -/
theorem heuristic_center_mem_candidates (set : StringSet) :
    (heuristic set).center ∈ candidates set.stringLength := by
  have hinv := foldl_incorporate_keyInv set (List.range set.numStrings)
    ⟨List.replicate set.stringLength none, [], List.replicate set.stringLength []⟩
    ⟨by simp, by
      intro k hk
      exact Or.inl (List.eq_of_mem_replicate hk)⟩
  apply mem_candidates
  · simp only [heuristic, List.length_map]
    exact hinv.1
  · intro c hc
    simp only [heuristic, List.mem_map] at hc
    obtain ⟨k, hk, rfl⟩ := hc
    rcases hinv.2 k hk with h | h | h <;> simp [h]

theorem heuristic_score_eq (set : StringSet) :
    (heuristic set).score = score (heuristic set).center set := rfl

/-- C6: for every valid `StringSet`, the `Result` of `bruteForce` never has a score worse
(larger) than the `Result` of `heuristic` for the same set. -/
theorem bruteForce_score_le_heuristic (set : StringSet) (_hvalid : set.Valid) :
    (bruteForce set).score ≤ (heuristic set).score := by
  rw [heuristic_score_eq]
  exact bruteForce_optimal set _ (heuristic_center_mem_candidates set)

theorem bruteForce_score_le_heuristic_witness :
    (bruteForce ⟨3, 3, ["110".toList, "011".toList, "0*1".toList]⟩).score ≤
      (heuristic ⟨3, 3, ["110".toList, "011".toList, "0*1".toList]⟩).score :=
  bruteForce_score_le_heuristic ⟨3, 3, ["110".toList, "011".toList, "0*1".toList]⟩
    ⟨by decide, rfl, by decide⟩

end CommonString
